import Mathlib

/-!
Verification of `src/brevitas/graph/gptq.py` (GPTQ post-training quantization).

Shallow embedding conventions:
* Tensors are total functions `Nat → ℚ` (vectors) / `Nat → Nat → ℚ` (matrices);
  entries at indices beyond the declared bounds are junk and never constrained.
  Exact rational arithmetic stands in for floating point.
* `GPTQState` embeds the per-layer state built by `GPTQ.__init__`
  (lines 141-167): groups, rows, columns, block count, act_order flag,
  the Hessian accumulator `H : groups × columns × columns`, the running
  sample count and the (flattened, line 154/225) weight matrix.
* External library primitives (the layer's weight quantizer
  `layer.quant_weight` and the torch Cholesky chain of lines 276-278) are
  out-of-scope collaborators per the design; they are passed in as the
  parameters of `SLUCtx`, with `none` modelling a raised `LinAlgError`.
* Python exceptions are modelled with `Except PyExc`; `PyExc.stopFwd` is
  `StopFwdException` (line 16) and `PyExc.other c` any other exception.
-/

namespace BrevitasGPTQ

abbrev Vec : Type := Nat → ℚ

abbrev Mat : Type := Nat → Nat → ℚ

/-- Row `r` of the weight matrix belongs to group `gidx groups r`:
for `groups = 1` every row shares group 0 (lines 252-268, 294-296, 317-319),
for depthwise layers (`groups = out_channels`, lines 72-73) row `r` is its
own group (lines 233-251, 297-302, 312-316). -/
def gidx (groups r : Nat) : Nat := if groups = 1 then 0 else r

/-- Per-layer GPTQ state, from `GPTQ.__init__` (lines 141-167). -/
structure GPTQState where
  layerName : String
  groups : Nat
  rows : Nat
  columns : Nat
  numBlocks : Nat
  actOrder : Bool
  H : Nat → Mat
  nsamples : Nat
  weight : Mat

/-- `self.blocksize = math.ceil(self.columns / self.num_blocks)` (line 163). -/
def blocksize (s : GPTQState) : Nat := (s.columns + s.numBlocks - 1) / s.numBlocks

/-- Initial state: zero Hessian accumulator and zero sample count
(lines 165-167). -/
def initGPTQ (name : String) (groups rows columns numBlocks : Nat)
    (actOrder : Bool) (w : Mat) : GPTQState :=
  { layerName := name, groups := groups, rows := rows, columns := columns,
    numBlocks := numBlocks, actOrder := actOrder,
    H := fun _ _ _ => 0, nsamples := 0, weight := w }

/-- One calibration batch, already shape-preprocessed as in lines 186-210:
a list of batch items; each item contributes a list of feature columns
(one per token / unfold patch), each column being a per-group feature
vector `g ↦ i ↦ value`.  `batch.length` is `inp.shape[0]` (line 184). -/
abbrev Item : Type := List Mat

/-- Per-group entry `(i, j)` of `inp_processed.bmm(inp_processed.transpose(2, 1))`
without the `sqrt(2 / nsamples)` scaling: the Gram matrix of all feature
columns of the batch (line 216). -/
def gramAdd (batch : List Item) (g i j : Nat) : ℚ :=
  (batch.map (fun item => (item.map (fun col => col g i * col g j)).sum)).sum

/-- `GPTQ.update_batch`, Hessian part (lines 212-216):
`H *= nsamples/(nsamples+batch_size)`; `nsamples += batch_size`;
`inp_processed *= sqrt(2/nsamples)`; `H += inp_processed @ inp_processedᵀ`.
Over exact arithmetic `(sqrt c · X)(sqrt c · X)ᵀ = c · (X Xᵀ)`, so the two
last steps are embedded as adding `(2/nsamples) · gramAdd`. -/
def update_batch (s : GPTQState) (batch : List Item) : GPTQState :=
  let n : ℚ := (s.nsamples : ℚ)
  let b : ℚ := (batch.length : ℚ)
  { s with
    H := fun g i j => s.H g i j * (n / (n + b)) + 2 / (n + b) * gramAdd batch g i j,
    nsamples := s.nsamples + batch.length }

/-- Exceptions crossing the wrapped forward: the distinguished
`StopFwdException` (line 16) versus any other exception. -/
inductive PyExc : Type
  | stopFwd : PyExc
  | other : Nat → PyExc
deriving DecidableEq

/-- The full hook `GPTQ.update_batch` (lines 169-217): it first mutates the
state (lines 212-214/216 embedded in `update_batch`) and then always raises
`StopFwdException` (line 217). -/
def update_batch_run (s : GPTQState) (batch : List Item) :
    GPTQState × Except PyExc Unit :=
  (update_batch s batch, Except.error PyExc.stopFwd)

/-- `gptq_mode.catch_stopfwd` (lines 115-119): run the original forward,
swallow `StopFwdException`, let anything else propagate; the Python body has
no `return`, so every normal exit returns `None`. -/
def catch_stopfwd {α β : Type} (orig : α → Except PyExc β) (x : α) :
    Except PyExc (Option β) :=
  match orig x with
  | Except.ok _ => Except.ok none
  | Except.error PyExc.stopFwd => Except.ok none
  | Except.error (PyExc.other c) => Except.error (PyExc.other c)

/-- The model attributes touched by `gptq_mode`: the forward entry point,
the activation / bias quantization toggles, and the per-module forward hooks
attached to the model's dispatch (each module's `_forward_hooks`, recorded
here by module name). `F` is the (opaque) type of forward functions. -/
structure ModelState (F : Type) where
  forward : F
  actQuant : Bool
  biasQuant : Bool
  hooks : List String

/-- The session bookkeeping of `gptq_mode` relevant to enter/update/exit:
the model, `use_quant_activations`, the saved `orig_forward`, and
`self.hook_dict` — the handles of the hooks the session registered
(line 93), keyed by layer name. -/
structure SessionState (F : Type) where
  model : ModelState F
  useQuantActivations : Bool
  origForward : F
  hookDict : List String

/-- `gptq_mode.__init__` (lines 46-69): save `orig_forward = model.forward`
(line 68), install the wrapper as the new entry point (line 69), and start
with an empty `hook_dict` (line 57).  `wrap` is the (opaque) operation
turning the saved forward into `catch_stopfwd`. -/
def gptqInit {F : Type} (m : ModelState F) (uqa : Bool) (wrap : F → F) :
    SessionState F :=
  { model := { m with forward := wrap m.forward },
    useQuantActivations := uqa, origForward := m.forward, hookDict := [] }

/-- `gptq_mode.__enter__` (lines 80-101): register one forward hook per
eligible layer (line 93, recorded both on the model's dispatch and in
`self.hook_dict`) and, when `use_quant_activations` is false, disable
activation and bias quantization (lines 95-99). -/
def gptqEnter {F : Type} (s : SessionState F) (eligible : List String) :
    SessionState F :=
  let s1 := { s with
    model := { s.model with hooks := s.model.hooks ++ eligible },
    hookDict := eligible }
  if s1.useQuantActivations then s1
  else { s1 with model := { s1.model with actQuant := false, biasQuant := false } }

/-- `gptq_mode.update`, hook part (lines 111-113): after running the current
layer's `single_layer_update`, remove that layer's forward hook — the only
place a session hook is ever detached. -/
def gptqUpdate {F : Type} (s : SessionState F) (layer : String) :
    SessionState F :=
  { s with
    model := { s.model with hooks := s.model.hooks.erase layer }
    hookDict := s.hookDict.erase layer }

/-- `gptq_mode.__exit__` (lines 103-109): restore the saved entry point and,
when `use_quant_activations` is false, re-enable activation and bias
quantization.  The exception argument is ignored: Python runs `__exit__`
however the scope is left.  Nothing in lines 103-109 touches
`self.hook_dict` or any module's hooks. -/
def gptqExit {F : Type} (s : SessionState F) (exc : Option PyExc) :
    SessionState F :=
  let m := { s.model with forward := s.origForward }
  match exc with
  | _ =>
    if s.useQuantActivations then { s with model := m }
    else { s with model := { m with actQuant := true, biasQuant := true } }

/-- External collaborators of `GPTQ.single_layer_update`:
`quant` is `self.layer.quant_weight().value` flattened (lines 337-341), as a
function of the layer's current weights; `cholInv` is the composite
`cholesky ∘ cholesky_inverse ∘ cholesky(upper)` chain of lines 276-278,
returning `none` when torch raises `LinAlgError`. -/
structure SLUCtx where
  quant : Mat → Mat
  cholInv : Mat → Option Mat

/-- Dead-channel fix on the Hessian (lines 239-240 / 256-257): any zero
diagonal entry is set to 1; nothing else changes. -/
def deadFixH (s : GPTQState) (g : Nat) : Mat :=
  fun a b => if a = b ∧ s.H g a a = 0 then 1 else s.H g a b

/-- Dead-channel fix on the weights (lines 242 / 259): zero every weight
entry whose column has a zero Hessian diagonal in that row's group. -/
def deadFixW (s : GPTQState) : Mat :=
  fun r c =>
    if c < s.columns ∧ s.H (gidx s.groups r) c c = 0 then 0 else s.weight r c

/-- Column ordering (lines 243-251 / 260-268): with `act_order`,
`torch.argsort(diag, descending=True)` — indices sorted by descending
diagonal value; otherwise the identity list `range(columns)`. -/
def computePerm (actOrder : Bool) (diag : Nat → ℚ) (n : Nat) : List Nat :=
  if actOrder then
    (List.range n).mergeSort (fun a b => decide (diag b ≤ diag a))
  else List.range n

/-- Positional lookup in a permutation list. -/
def permAt (l : List Nat) (i : Nat) : Nat := l.getD i 0

/-- The permutation computed for group `g` (applied to the dead-fixed
diagonal, since lines 243-251/260-268 run after lines 239-242/256-259). -/
def permOf (s : GPTQState) (g : Nat) : List Nat :=
  computePerm s.actOrder (fun c => deadFixH s g c c) s.columns

/-- The Hessian after dead-fix and permutation
(`self.H[i, perm, :][:, perm]`, lines 247 / 264). -/
def permutedH (s : GPTQState) (g : Nat) : Mat :=
  fun a b => deadFixH s g (permAt (permOf s g) a) (permAt (permOf s g) b)

/-- `damp = percdamp * torch.mean(torch.diag(self.H[i]))` (line 273). -/
def dampOf (s : GPTQState) (pd : ℚ) (g : Nat) : ℚ :=
  pd * (∑ c ∈ Finset.range s.columns, permutedH s g c c) / (s.columns : ℚ)

/-- The Hessian passed to the inversion chain: damping added on the
diagonal (lines 274-275). -/
def dampedH (s : GPTQState) (pd : ℚ) (g : Nat) : Mat :=
  fun a b => permutedH s g a b + if a = b ∧ a < s.columns then dampOf s pd g else 0

/-- The stabilized inverse factor `h_inv` for group `g` (the upper Cholesky
factor of the damped Hessian's inverse, lines 276-279), read off the
external oracle; only used on the success branch. -/
def cholU (ctx : SLUCtx) (s : GPTQState) (pd : ℚ) (g : Nat) : Mat :=
  (ctx.cholInv (dampedH s pd g)).getD (fun _ _ => 0)

/-- The data the block loop (lines 289-333) reads. -/
structure LoopCtx where
  groups : Nat
  columns : Nat
  quant : Mat → Mat
  perm : Nat → List Nat
  hU : Nat → Mat

/-- The Hessian-side column index used by row `r` at loop position `p`
(each row indexes the weight through its own group's permutation,
lines 296 / 301-302 / 323 / 328-333). -/
def rp (L : LoopCtx) (r p : Nat) : Nat := permAt (L.perm (gidx L.groups r)) p

/-- The inverse factor used by row `r` (`h_inv[0]` broadcast for
`groups == 1`, `h_inv[r]` for depthwise, lines 308, 316-319). -/
def rU (L : LoopCtx) (r : Nat) : Mat := L.hU (gidx L.groups r)

/-- The group whose permutation the write-back of line 323 actually uses:
the loop variable `perm` as left by lines 294-302.  For `groups == 1`,
line 295 sets it to `permutation_list[0]`; for `groups > 1` the
`for ii, perm in enumerate(permutation_list)` loop of line 301 leaks its
last iteration, so line 323 indexes **every** row through the **last**
group's permutation. -/
def staleIdx (groups : Nat) : Nat := if groups = 1 then 0 else groups - 1

/-- The permutation line 323 indexes `weight` with (see `staleIdx`). -/
def stalePerm (L : LoopCtx) : List Nat := L.perm (staleIdx L.groups)

/-- Mutable state threaded across blocks: the live weight matrix plus the
traces of the quantized values read (line 309) and the residual errors
(lines 311, 320), indexed by absolute loop position. -/
structure RunState where
  W : Mat
  qlog : Nat → Vec
  elog : Nat → Vec

/-- Mutable state inside one block: the live weight, the block copy
`weight_block` (lines 296 / 299-302; indexed here by absolute position), and
the logs. -/
structure InnerState where
  W : Mat
  B : Nat → Vec
  qlog : Nat → Vec
  elog : Nat → Vec

/-- The write-back of line 323,
`weight[:, perm[i1:i2][i:]] = weight_block[:, i:]`: for every `σ` in
`[p, i2)`, column `permAt stale σ` of every row of the live weight is
assigned the block copy's column `σ`. -/
def writeBack (stale : List Nat) (p i2 : Nat) (B : Nat → Vec) (W : Mat) : Mat :=
  (List.range' p (i2 - p)).foldl
    (fun Wacc σ => fun r c => if c = permAt stale σ then B σ r else Wacc r c) W

/-- One iteration of the inner column loop (lines 306-323) at absolute
position `p` (`= i1 + i`) in a block ending at `i2`:
read `w` from the block copy (line 307) and the freshly recomputed quantized
column `q` from the **live** weights (`get_quant_weights`, lines 335-354,
which indexes each row through its own group's permutation), form
`error = (w - q) / d` with `d = h_inv_block[:, i, i]`, subtract
`error ⊗ h_inv_block[:, i, i:]` from the not-yet-processed columns of the
block copy (lines 312-319, per group), then write the copy's columns
`[p, i2)` back into the live weight through `stalePerm` (line 323). -/
def colStep (L : LoopCtx) (i2 : Nat) (st : InnerState) (p : Nat) : InnerState :=
  let q : Vec := fun r => L.quant st.W r (rp L r p)
  let e : Vec := fun r => (st.B p r - q r) / rU L r p p
  let B' : Nat → Vec := fun σ r =>
    st.B σ r - (if p ≤ σ ∧ σ < i2 then e r * rU L r p σ else 0)
  { W := writeBack (stalePerm L) p i2 B' st.W,
    B := B',
    qlog := Function.update st.qlog p q,
    elog := Function.update st.elog p e }

/-- One iteration of the outer block loop (lines 289-333): build the block
copy (each row read through its own group's permutation, lines 296/301-302),
run the inner column loop over `[i1, i2)`, then propagate the recorded block
errors to all columns past the block
(`weight[:, perm[i2:]] -= error_block @ h_inv[:, i1:i2, i2:]`,
lines 325-333, again per row through its own group's permutation). -/
def blockStep (L : LoopCtx) (bs : Nat) (st : RunState) (k : Nat) : RunState :=
  let i1 := k * bs
  let i2 := min (i1 + bs) L.columns
  let stI : InnerState :=
    { W := st.W, B := fun σ r => st.W r (rp L r σ),
      qlog := st.qlog, elog := st.elog }
  let st1 := (List.range' i1 (i2 - i1)).foldl (colStep L i2) stI
  { W := fun r c => st1.W r c -
      ∑ j ∈ Finset.Ico i2 L.columns, if rp L r j = c then
        ∑ i ∈ Finset.Ico i1 i2, st1.elog i r * rU L r i j else 0,
    qlog := st1.qlog,
    elog := st1.elog }

/-- Number of iterations of `range(0, self.columns, self.blocksize)`
(line 289). -/
def nBlocks (s : GPTQState) : Nat :=
  (s.columns + blocksize s - 1) / blocksize s

/-- The loop context assembled by `single_layer_update` on its success
branch. -/
def loopCtxOf (ctx : SLUCtx) (s : GPTQState) (pd : ℚ) : LoopCtx :=
  { groups := s.groups, columns := s.columns, quant := ctx.quant,
    perm := fun g => permOf s g, hU := fun g => cholU ctx s pd g }

/-- The whole block loop, starting from a given weight matrix. -/
def runBlocks (L : LoopCtx) (bs nb : Nat) (W0 : Mat) : RunState :=
  (List.range nb).foldl (blockStep L bs)
    { W := W0, qlog := fun _ _ => 0, elog := fun _ _ => 0 }

/-- Result of `single_layer_update`: the final weight matrix and the warning
(line 281-284) carrying the layer name, `none` when no warning was issued. -/
structure SLUResult where
  weight : Mat
  warning : Option String

/-- `GPTQ.single_layer_update` (lines 219-333): dead-channel handling and
permutation (lines 232-268), per-group damping and Cholesky-based inversion
(lines 270-287) — on `LinAlgError` warn and return with the weights as
left by the dead-channel step — then the block-wise correction loop
(lines 289-333). -/
def single_layer_update (ctx : SLUCtx) (s : GPTQState) (pd : ℚ) : SLUResult :=
  let W1 := deadFixW s
  if ∀ g ∈ Finset.range s.groups, (ctx.cholInv (dampedH s pd g)).isSome then
    { weight := (runBlocks (loopCtxOf ctx s pd) (blocksize s) (nBlocks s) W1).W,
      warning := none }
  else
    { weight := W1, warning := some s.layerName }

/-! ### Invariant predicates -/

/-- The accumulator is symmetric (spec data-model invariant). -/
def HessSymm (s : GPTQState) : Prop := ∀ g i j, s.H g i j = s.H g j i

/-- The accumulator's diagonal entries are non-negative. -/
def HessDiagNonneg (s : GPTQState) : Prop := ∀ g i, 0 ≤ s.H g i i

/-- A zero diagonal entry forces its whole row and column to zero — true of
every accumulator actually built by `update_batch` (it is a weighted Gram
matrix), and the fact that makes the dead-channel policy sound. -/
def DeadRowZero (s : GPTQState) : Prop :=
  ∀ g j, s.H g j j = 0 → ∀ k, s.H g j k = 0 ∧ s.H g k j = 0

/-- Loop-state invariant for the zero-sample analysis: every in-range weight
entry and every logged error is zero. -/
def AllZeroInv (cols : Nat) (st : RunState) : Prop :=
  (∀ r c, c < cols → st.W r c = 0) ∧ (∀ p r, st.elog p r = 0)

/-- The same invariant inside a block, covering the block copy as well. -/
def AllZeroInner (cols : Nat) (st : InnerState) : Prop :=
  (∀ r c, c < cols → st.W r c = 0) ∧ (∀ σ r, σ < cols → st.B σ r = 0) ∧
  (∀ p r, st.elog p r = 0)

/-! ### Concrete example states (inputs of witnesses and counterexamples) -/

/-- A one-row layer state, two columns, with a dead column 0
(`H = [[0, 2], [2, 1]]`, `weight = [[5, 7]]`).  After the dead fix the damped
matrix is `[[1.01, 2], [2, 1.01]]`, which is not positive definite, so the
real Cholesky factorization fails on it. -/
def stFail : GPTQState :=
  { layerName := "fc1", groups := 1, rows := 1, columns := 2, numBlocks := 4,
    actOrder := false,
    H := fun _ a b => if a = 0 ∧ b = 0 then 0 else if a = 1 ∧ b = 1 then 1 else 2,
    nsamples := 3,
    weight := fun _ c => if c = 0 then 5 else 7 }

/-- Collaborators for `stFail`: the Cholesky chain fails (its input is not
positive definite), the quantizer is irrelevant. -/
def ctxFail : SLUCtx := { quant := fun W => W, cholInv := fun _ => none }

/-- A layer that never saw a calibration batch: `nsamples = 0`, zero
accumulator, one column, `weight = [[5]]`. -/
def stZero : GPTQState :=
  { layerName := "fc2", groups := 1, rows := 1, columns := 1, numBlocks := 4,
    actOrder := false, H := fun _ _ _ => 0, nsamples := 0,
    weight := fun _ _ => 5 }

/-- Collaborators for `stZero`: identity quantizer; the inversion chain
succeeds (the damped dead-fixed accumulator is `[[1.01]]`). -/
def ctxZero : SLUCtx :=
  { quant := fun W => W, cholInv := fun _ => some (fun _ _ => 1) }

/-- A depthwise layer (groups = 2 = rows) with act_order, two columns, whose
group 0 has column 0 dead: `H₀ = [[0, 0], [0, 4]]`, `H₁ = [[9, 0], [0, 4]]`,
`weight = [[5, 7], [3, 2]]`.  The dead-fixed diagonals sort to the
permutations `[1, 0]` (group 0) and `[0, 1]` (group 1), which differ — the
configuration in which line 323's stale-permutation write-back scatters
values across columns. -/
def stDeadBug : GPTQState :=
  { layerName := "dw1", groups := 2, rows := 2, columns := 2, numBlocks := 1,
    actOrder := true,
    H := fun g a b =>
      if g = 0 then (if a = 1 ∧ b = 1 then 4 else 0)
      else (if a = 0 ∧ b = 0 then 9 else if a = 1 ∧ b = 1 then 4 else 0),
    nsamples := 2,
    weight := fun r c =>
      if r = 0 then (if c = 0 then 5 else 7) else (if c = 0 then 3 else 2) }

/-- Collaborators for `stDeadBug`: identity quantizer (maps zero to zero)
and an identity inverse factor (the true stabilized factor of either damped
dead-fixed Hessian is likewise diagonal, hence decoupled at the dead
position with nonzero diagonal). -/
def ctxDeadBug : SLUCtx :=
  { quant := fun W => W,
    cholInv := fun _ => some (fun a b => if a = b then 1 else 0) }

/-- A depthwise layer (groups = 2 = rows) with act_order, three columns, no
dead channel: diagonals `[1, 9, 5]` (group 0) and `[9, 5, 1]` (group 1)
sort to the permutations `[1, 2, 0]` and `[0, 1, 2]`; `stalePerm ∘ permOf`
for row 0 is then a 3-cycle, which makes the stale write-back visible.
`weight = [[37, 12, 20], [1, 1, 1]]`. -/
def stScatter : GPTQState :=
  { layerName := "dw2", groups := 2, rows := 2, columns := 3, numBlocks := 1,
    actOrder := true,
    H := fun g a b =>
      if a = b then
        (if g = 0 then (if a = 0 then 1 else if a = 1 then 9 else 5)
         else (if a = 0 then 9 else if a = 1 then 5 else 1))
      else 0,
    nsamples := 2,
    weight := fun r c =>
      if r = 0 then (if c = 0 then 37 else if c = 1 then 12 else 20) else 1 }

/-- Collaborators for `stScatter`: a two-level threshold quantizer (an
idempotent 1-bit quantizer with levels 10 and 40) and an identity inverse
factor. -/
def ctxScatter : SLUCtx :=
  { quant := fun W r c => if W r c ≤ 15 then 10 else 40,
    cholInv := fun _ => some (fun a b => if a = b then 1 else 0) }

/-- A concrete model (forward functions as `Bool`) with no hooks attached,
for exercising the session lifecycle. -/
def mex : ModelState Bool :=
  { forward := true, actQuant := true, biasQuant := true, hooks := [] }

/-- A state with `nsamples = 0` used to exercise `update_batch`. -/
def stCalib : GPTQState :=
  { layerName := "fc5", groups := 1, rows := 1, columns := 1, numBlocks := 4,
    actOrder := false, H := fun _ _ _ => 0, nsamples := 0,
    weight := fun _ _ => 5 }

/-- A one-item calibration batch with a single feature column of ones. -/
def batchOnes : List Item := [[fun _ _ => 1]]

/-- A one-item calibration batch with a single feature column of twos. -/
def batchTwos : List Item := [[fun _ _ => 2]]

/-! ## Theorems -/

/-! ### Supporting lemmas on the accumulator update -/

theorem gramAdd_append (b1 b2 : List Item) (g i j : Nat) :
    gramAdd (b1 ++ b2) g i j = gramAdd b1 g i j + gramAdd b2 g i j := by
  simp [gramAdd]

theorem gramAdd_symm (batch : List Item) (g i j : Nat) :
    gramAdd batch g i j = gramAdd batch g j i := by
  simp only [gramAdd]
  congr 1
  apply List.map_congr_left
  intro item _
  congr 1
  apply List.map_congr_left
  intro col _
  exact mul_comm _ _

theorem gramAdd_diag_nonneg (batch : List Item) (g i : Nat) :
    0 ≤ gramAdd batch g i i := by
  apply List.sum_nonneg
  intro x hx
  rcases List.mem_map.mp hx with ⟨item, -, rfl⟩
  apply List.sum_nonneg
  intro y hy
  rcases List.mem_map.mp hy with ⟨col, -, rfl⟩
  exact mul_self_nonneg _

theorem foldl_preserves {α β : Type} (P : β → Prop) (step : β → α → β)
    (l : List α) : ∀ st : β,
    (∀ st x, x ∈ l → P st → P (step st x)) → P st → P (l.foldl step st) := by
  induction l with
  | nil => intro st _ h; simpa using h
  | cons x l ih =>
    intro st hstep h
    simp only [List.foldl_cons]
    exact ih (step st x)
      (fun st' y hy hP => hstep st' y (List.mem_cons_of_mem _ hy) hP)
      (hstep st x (List.mem_cons_self _ _) h)

theorem update_batch_symm (s : GPTQState) (batch : List Item) (hs : HessSymm s) :
    HessSymm (update_batch s batch) := by
  intro g i j
  simp only [update_batch]
  rw [hs g i j, gramAdd_symm]

theorem update_batch_diag_nonneg (s : GPTQState) (batch : List Item)
    (hd : HessDiagNonneg s) : HessDiagNonneg (update_batch s batch) := by
  intro g i
  simp only [update_batch]
  have c1 : (0 : ℚ) ≤ (s.nsamples : ℚ) / ((s.nsamples : ℚ) + (batch.length : ℚ)) :=
    div_nonneg (Nat.cast_nonneg _) (by positivity)
  have c2 : (0 : ℚ) ≤ 2 / ((s.nsamples : ℚ) + (batch.length : ℚ)) := by positivity
  exact add_nonneg (mul_nonneg (hd g i) c1) (mul_nonneg c2 (gramAdd_diag_nonneg batch g i))

theorem list_sum_zero_of_nonneg {l : List ℚ} (h : ∀ x ∈ l, 0 ≤ x)
    (hs : l.sum = 0) : ∀ x ∈ l, x = 0 := by
  induction l with
  | nil => intro x hx; cases hx
  | cons a l ih =>
    intro x hx
    have ha : 0 ≤ a := h a (List.mem_cons_self _ _)
    have hl : 0 ≤ l.sum :=
      List.sum_nonneg (fun y hy => h y (List.mem_cons_of_mem _ hy))
    rw [List.sum_cons] at hs
    rcases List.mem_cons.mp hx with rfl | hx'
    · linarith
    · exact ih (fun y hy => h y (List.mem_cons_of_mem _ hy)) (by linarith) x hx'

theorem gramAdd_dead (batch : List Item) (g j : Nat)
    (h : gramAdd batch g j j = 0) :
    ∀ item ∈ batch, ∀ col ∈ item, col g j = 0 := by
  intro item hitem col hcol
  have houter : ∀ x ∈ batch.map
      (fun item => (item.map (fun col => col g j * col g j)).sum), 0 ≤ x := by
    intro x hx
    rcases List.mem_map.mp hx with ⟨it, -, rfl⟩
    exact List.sum_nonneg (fun y hy => by
      rcases List.mem_map.mp hy with ⟨c, -, rfl⟩
      exact mul_self_nonneg _)
  have hz := list_sum_zero_of_nonneg houter h _ (List.mem_map_of_mem _ hitem)
  have hinner : ∀ y ∈ item.map (fun col => col g j * col g j), 0 ≤ y := by
    intro y hy
    rcases List.mem_map.mp hy with ⟨c, -, rfl⟩
    exact mul_self_nonneg _
  have hy := list_sum_zero_of_nonneg hinner hz _ (List.mem_map_of_mem _ hcol)
  exact mul_self_eq_zero.mp hy

theorem gramAdd_dead_row (batch : List Item) (g j m : Nat)
    (h : gramAdd batch g j j = 0) :
    gramAdd batch g j m = 0 ∧ gramAdd batch g m j = 0 := by
  have hc := gramAdd_dead batch g j h
  constructor
  · apply List.sum_eq_zero
    intro x hx
    rcases List.mem_map.mp hx with ⟨item, hitem, rfl⟩
    apply List.sum_eq_zero
    intro y hy
    rcases List.mem_map.mp hy with ⟨col, hcol, rfl⟩
    rw [hc item hitem col hcol, zero_mul]
  · apply List.sum_eq_zero
    intro x hx
    rcases List.mem_map.mp hx with ⟨item, hitem, rfl⟩
    apply List.sum_eq_zero
    intro y hy
    rcases List.mem_map.mp hy with ⟨col, hcol, rfl⟩
    rw [hc item hitem col hcol, mul_zero]

/-- A weighted Gram update cannot create a zero diagonal entry with nonzero
off-diagonal mass: `update_batch` preserves `DeadRowZero`.  This is the fact
that justifies treating zero-diagonal columns as fully dead in
`single_layer_update`. -/
theorem update_batch_dead_row_zero (s : GPTQState) (batch : List Item)
    (hdnn : HessDiagNonneg s) (hdrz : DeadRowZero s) :
    DeadRowZero (update_batch s batch) := by
  intro g j hjj k
  simp only [update_batch] at hjj ⊢
  have hc1 : (0 : ℚ) ≤ (s.nsamples : ℚ) / ((s.nsamples : ℚ) + (batch.length : ℚ)) :=
    div_nonneg (Nat.cast_nonneg _) (by positivity)
  have hc2 : (0 : ℚ) ≤ 2 / ((s.nsamples : ℚ) + (batch.length : ℚ)) := by positivity
  have ht1 : 0 ≤ s.H g j j * ((s.nsamples : ℚ) / ((s.nsamples : ℚ) + (batch.length : ℚ))) :=
    mul_nonneg (hdnn g j) hc1
  have ht2 : 0 ≤ 2 / ((s.nsamples : ℚ) + (batch.length : ℚ)) * gramAdd batch g j j :=
    mul_nonneg hc2 (gramAdd_diag_nonneg batch g j)
  have hz1 : s.H g j j * ((s.nsamples : ℚ) / ((s.nsamples : ℚ) + (batch.length : ℚ))) = 0 := by
    linarith
  have hz2 : 2 / ((s.nsamples : ℚ) + (batch.length : ℚ)) * gramAdd batch g j j = 0 := by
    linarith
  have hterm1 : ∀ m,
      s.H g j m * ((s.nsamples : ℚ) / ((s.nsamples : ℚ) + (batch.length : ℚ))) = 0 ∧
      s.H g m j * ((s.nsamples : ℚ) / ((s.nsamples : ℚ) + (batch.length : ℚ))) = 0 := by
    intro m
    rcases mul_eq_zero.mp hz1 with hH0 | hq0
    · exact ⟨by rw [(hdrz g j hH0 m).1, zero_mul], by rw [(hdrz g j hH0 m).2, zero_mul]⟩
    · exact ⟨by rw [hq0, mul_zero], by rw [hq0, mul_zero]⟩
  have hterm2 : ∀ m,
      2 / ((s.nsamples : ℚ) + (batch.length : ℚ)) * gramAdd batch g j m = 0 ∧
      2 / ((s.nsamples : ℚ) + (batch.length : ℚ)) * gramAdd batch g m j = 0 := by
    intro m
    rcases mul_eq_zero.mp hz2 with hq2 | hg0
    · exact ⟨by rw [hq2, zero_mul], by rw [hq2, zero_mul]⟩
    · have hrow := gramAdd_dead_row batch g j m hg0
      exact ⟨by rw [hrow.1, mul_zero], by rw [hrow.2, mul_zero]⟩
  exact ⟨by rw [(hterm1 k).1, (hterm2 k).1, add_zero],
    by rw [(hterm1 k).2, (hterm2 k).2, add_zero]⟩

/-- Every layer state actually reachable through calibration (any sequence
of `update_batch` calls from the initial state) satisfies `DeadRowZero`:
a zero accumulator diagonal entry forces its whole row and column to zero. -/
theorem reachable_dead_row_zero (name : String)
    (groups rows columns numBlocks : Nat) (actOrder : Bool) (w : Mat)
    (batches : List (List Item)) :
    DeadRowZero (batches.foldl update_batch
      (initGPTQ name groups rows columns numBlocks actOrder w)) := by
  have h := foldl_preserves (fun s => HessDiagNonneg s ∧ DeadRowZero s)
    update_batch batches (initGPTQ name groups rows columns numBlocks actOrder w)
    (fun s batch _ hP =>
      ⟨update_batch_diag_nonneg s batch hP.1,
        update_batch_dead_row_zero s batch hP.1 hP.2⟩)
    ⟨fun g i => le_refl 0, fun g j _ k => ⟨rfl, rfl⟩⟩
  exact h.2

/-- C1 (claim theorem) — **Accumulator invariance to batching.**  Feeding one
batch holding the items of `b1 ++ b2` produces exactly the accumulator and
sample count produced by feeding `b1` then `b2`, from any starting state; and
from a fresh state (`nsamples = 0`) the result is `2 / N` times the Gram sum
of the per-sample outer products of the processed input, per group. -/
theorem update_batch_batching_invariant (s : GPTQState) (b1 b2 : List Item)
    (h1 : 1 ≤ b1.length) (h2 : 1 ≤ b2.length) :
    (∀ g i j, (update_batch (update_batch s b1) b2).H g i j
      = (update_batch s (b1 ++ b2)).H g i j) ∧
    (update_batch (update_batch s b1) b2).nsamples
      = (update_batch s (b1 ++ b2)).nsamples ∧
    (s.nsamples = 0 → ∀ g i j,
      (update_batch s (b1 ++ b2)).H g i j
        = 2 / ((b1.length : ℚ) + (b2.length : ℚ)) * gramAdd (b1 ++ b2) g i j) := by
  have hk : (0 : ℚ) < (b1.length : ℚ) := by exact_mod_cast h1
  have hm : (0 : ℚ) < (b2.length : ℚ) := by exact_mod_cast h2
  have hn : (0 : ℚ) ≤ (s.nsamples : ℚ) := Nat.cast_nonneg _
  refine ⟨?_, ?_, ?_⟩
  · intro g i j
    simp only [update_batch, gramAdd_append, List.length_append]
    push_cast
    have d1 : (s.nsamples : ℚ) + (b1.length : ℚ) ≠ 0 := by linarith
    have d2 : (s.nsamples : ℚ) + ((b1.length : ℚ) + (b2.length : ℚ)) ≠ 0 := by linarith
    have d3 : (s.nsamples : ℚ) + (b1.length : ℚ) + (b2.length : ℚ) ≠ 0 := by linarith
    field_simp
    ring
  · simp only [update_batch, List.length_append]
    omega
  · intro h0 g i j
    simp only [update_batch, h0, List.length_append, Nat.cast_zero]
    push_cast
    rw [zero_div, mul_zero, zero_add, zero_add]

/-- C1 witness: the batching invariance at a concrete state and two concrete
one-item batches. -/
theorem update_batch_batching_invariant_witness :
    (∀ g i j, (update_batch (update_batch stCalib batchOnes) batchTwos).H g i j
      = (update_batch stCalib (batchOnes ++ batchTwos)).H g i j) ∧
    (update_batch (update_batch stCalib batchOnes) batchTwos).nsamples
      = (update_batch stCalib (batchOnes ++ batchTwos)).nsamples ∧
    (stCalib.nsamples = 0 → ∀ g i j,
      (update_batch stCalib (batchOnes ++ batchTwos)).H g i j
        = 2 / ((batchOnes.length : ℚ) + (batchTwos.length : ℚ))
            * gramAdd (batchOnes ++ batchTwos) g i j) :=
  update_batch_batching_invariant stCalib batchOnes batchTwos (by decide) (by decide)

/-- C7 (claim theorem) — the Hessian accumulator is symmetric with
non-negative diagonal at initialization and these invariants are preserved by
every `update_batch`. -/
theorem hessian_symm_nonneg_invariant :
    (∀ name groups rows columns numBlocks actOrder w,
      HessSymm (initGPTQ name groups rows columns numBlocks actOrder w) ∧
      HessDiagNonneg (initGPTQ name groups rows columns numBlocks actOrder w)) ∧
    (∀ s batch, HessSymm s → HessSymm (update_batch s batch)) ∧
    (∀ s batch, HessDiagNonneg s → HessDiagNonneg (update_batch s batch)) := by
  exact ⟨fun name groups rows columns numBlocks actOrder w =>
      ⟨fun g i j => rfl, fun g i => le_refl 0⟩,
    update_batch_symm, update_batch_diag_nonneg⟩

/-! ### Supporting lemmas on permutations -/

theorem computePerm_perm (ao : Bool) (d : Nat → ℚ) (n : Nat) :
    (computePerm ao d n).Perm (List.range n) := by
  cases ao
  · simp [computePerm]
  · simpa [computePerm] using List.mergeSort_perm (List.range n) _

theorem permAt_lt_of_perm {l : List Nat} {n : Nat} (h : l.Perm (List.range n))
    {i : Nat} (hi : i < n) : permAt l i < n := by
  have hl : i < l.length := by rw [h.length_eq, List.length_range]; exact hi
  have hmem : l.getD i 0 ∈ l := by
    rw [List.getD_eq_getElem l 0 hl]; exact List.getElem_mem hl
  exact List.mem_range.mp (h.mem_iff.mp hmem)

theorem permAt_inj_of_perm {l : List Nat} {n : Nat} (h : l.Perm (List.range n))
    {i j : Nat} (hi : i < n) (hj : j < n) (he : permAt l i = permAt l j) :
    i = j := by
  have hnd : l.Nodup := h.nodup_iff.mpr (List.nodup_range n)
  have hli : i < l.length := by rw [h.length_eq, List.length_range]; exact hi
  have hlj : j < l.length := by rw [h.length_eq, List.length_range]; exact hj
  rw [permAt, permAt, List.getD_eq_getElem l 0 hli, List.getD_eq_getElem l 0 hlj] at he
  exact (List.Nodup.getElem_inj_iff hnd).mp he

theorem exists_permAt_eq {l : List Nat} {n : Nat} (h : l.Perm (List.range n))
    {j : Nat} (hj : j < n) : ∃ p, p < n ∧ permAt l p = j := by
  have hmem : j ∈ l := h.mem_iff.mpr (List.mem_range.mpr hj)
  rcases List.mem_iff_getElem.mp hmem with ⟨p, hp, hpe⟩
  refine ⟨p, ?_, ?_⟩
  · rwa [h.length_eq, List.length_range] at hp
  · rw [permAt, List.getD_eq_getElem l 0 hp, hpe]

theorem permOf_perm (s : GPTQState) (g : Nat) :
    (permOf s g).Perm (List.range s.columns) :=
  computePerm_perm _ _ _

/-- C6 (claim theorem) — the per-group permutation of
`single_layer_update` is a permutation of `[0, columns)`; with act_order it
lists indices in descending order of the accumulator's (dead-fixed) diagonal,
without act_order it is exactly the identity `[0, 1, ..., columns-1]`. -/
theorem permOf_spec (s : GPTQState) (g : Nat) :
    (permOf s g).Perm (List.range s.columns) ∧
    (s.actOrder = true →
      (permOf s g).Pairwise (fun a b => deadFixH s g b b ≤ deadFixH s g a a)) ∧
    (s.actOrder = false → permOf s g = List.range s.columns) := by
  refine ⟨permOf_perm s g, ?_, ?_⟩
  · intro ha
    have htr : ∀ a b c : Nat,
        decide (deadFixH s g b b ≤ deadFixH s g a a) = true →
        decide (deadFixH s g c c ≤ deadFixH s g b b) = true →
        decide (deadFixH s g c c ≤ deadFixH s g a a) = true := by
      intro a b c hab hbc
      simp only [decide_eq_true_eq] at *
      exact le_trans hbc hab
    have hto : ∀ a b : Nat,
        (decide (deadFixH s g b b ≤ deadFixH s g a a) ||
          decide (deadFixH s g a a ≤ deadFixH s g b b)) = true := by
      intro a b
      simp only [Bool.or_eq_true, decide_eq_true_eq]
      exact le_total _ _
    have hs := List.sorted_mergeSort htr hto (List.range s.columns)
    have he : permOf s g
        = (List.range s.columns).mergeSort
            (fun a b => decide (deadFixH s g b b ≤ deadFixH s g a a)) := by
      simp [permOf, computePerm, ha]
    rw [he]
    exact hs.imp (fun h => of_decide_eq_true h)
  · intro ha
    simp [permOf, computePerm, ha]

/-- C8 (claim theorem) — `update_batch` always raises `StopFwdException`
after mutating the accumulator state, and the entry-point wrapper
`catch_stopfwd` returns normally exactly when the wrapped forward raises
`StopFwdException` or nothing, propagates every other exception unchanged,
and never lets the abort signal escape. -/
theorem stopfwd_protocol :
    (∀ s batch, (update_batch_run s batch).2 = Except.error PyExc.stopFwd ∧
      (update_batch_run s batch).1 = update_batch s batch) ∧
    (∀ (α β : Type) (orig : α → Except PyExc β) (x : α),
      ((∃ r, catch_stopfwd orig x = Except.ok r) ↔
        orig x = Except.error PyExc.stopFwd ∨ ∃ v, orig x = Except.ok v) ∧
      (∀ c, orig x = Except.error (PyExc.other c) →
        catch_stopfwd orig x = Except.error (PyExc.other c)) ∧
      catch_stopfwd orig x ≠ Except.error PyExc.stopFwd) := by
  refine ⟨fun s batch => ⟨rfl, rfl⟩, ?_⟩
  intro α β orig x
  rcases h : orig x with e | v
  · cases e with
    | stopFwd => simp [catch_stopfwd, h]
    | other c => simp [catch_stopfwd, h]
  · simp [catch_stopfwd, h]

/-- C9 counterexample — the claim's final conjunct "no other
session-installed modification of the model's dispatch remains" fails:
enter a session over a model with one eligible layer and leave the scope
without ever calling `update()` (as an exception mid-calibration would);
`__exit__` restores the entry point but the forward hook registered by
`__enter__` (line 93) is still attached to the model's dispatch. -/
theorem session_exit_keeps_hooks_cex :
    (gptqExit (gptqEnter (gptqInit mex false (fun _ => false)) ["fc"])
        (some (PyExc.other 1))).model.forward = mex.forward ∧
    (gptqExit (gptqEnter (gptqInit mex false (fun _ => false)) ["fc"])
        (some (PyExc.other 1))).model.hooks = ["fc"] ∧
    ¬ (gptqExit (gptqEnter (gptqInit mex false (fun _ => false)) ["fc"])
        (some (PyExc.other 1))).model.hooks = mex.hooks := by
  refine ⟨by decide, by decide, by decide⟩

/-- C9 (amended claim theorem) — on exit of the `gptq_mode` scope (however
it is exited) the model's entry point is restored to the exact function
saved at construction, and activation/bias quantization are re-enabled iff
`use_quant_activations` was false (untouched otherwise); **however**,
`__exit__` removes no forward hooks: the per-layer hooks registered by
`__enter__` remain attached to the model's dispatch, and only
`update()` (lines 111-113) detaches the current layer's hook. -/
theorem session_exit_restores_entry_and_toggles :
    ∀ (F : Type) (m : ModelState F) (uqa : Bool) (wrap : F → F)
      (eligible : List String) (exc : Option PyExc),
      (gptqExit (gptqEnter (gptqInit m uqa wrap) eligible) exc).model.forward
        = m.forward ∧
      (gptqExit (gptqEnter (gptqInit m uqa wrap) eligible) exc).model.actQuant
        = (if uqa then m.actQuant else true) ∧
      (gptqExit (gptqEnter (gptqInit m uqa wrap) eligible) exc).model.biasQuant
        = (if uqa then m.biasQuant else true) ∧
      (gptqExit (gptqEnter (gptqInit m uqa wrap) eligible) exc).model.hooks
        = m.hooks ++ eligible ∧
      (∀ s : SessionState F, (gptqExit s exc).model.hooks = s.model.hooks) ∧
      (∀ (s : SessionState F) (layer : String),
        (gptqUpdate s layer).model.hooks = s.model.hooks.erase layer) := by
  intro F m uqa wrap eligible exc
  refine ⟨?_, ?_, ?_, ?_, ?_, ?_⟩
  · cases uqa <;> simp [gptqInit, gptqEnter, gptqExit]
  · cases uqa <;> simp [gptqInit, gptqEnter, gptqExit]
  · cases uqa <;> simp [gptqInit, gptqEnter, gptqExit]
  · cases uqa <;> simp [gptqInit, gptqEnter, gptqExit]
  · intro s
    by_cases h : s.useQuantActivations <;> simp [gptqExit, h]
  · intro s layer
    simp [gptqUpdate]

/-- C10 (claim theorem) — whenever the wrapped entry point returns normally
its value is `None`: the underlying model's output is discarded even when the
forward pass raised nothing. -/
theorem catch_stopfwd_returns_none :
    ∀ (α β : Type) (orig : α → Except PyExc β) (x : α),
      catch_stopfwd orig x = Except.ok none ∨
      ∃ c, catch_stopfwd orig x = Except.error (PyExc.other c) := by
  intro α β orig x
  rcases h : orig x with e | v
  · cases e with
    | stopFwd => left; simp [catch_stopfwd, h]
    | other c => right; exact ⟨c, by simp [catch_stopfwd, h]⟩
  · left; simp [catch_stopfwd, h]

/-! ### Cholesky failure (single_layer_update, lines 270-287) -/

theorem slu_failure_branch (ctx : SLUCtx) (s : GPTQState) (pd : ℚ)
    (h : ∃ g ∈ Finset.range s.groups, ctx.cholInv (dampedH s pd g) = none) :
    single_layer_update ctx s pd
      = { weight := deadFixW s, warning := some s.layerName } := by
  rcases h with ⟨g, hg, hnone⟩
  have hno : ¬ ∀ g ∈ Finset.range s.groups, (ctx.cholInv (dampedH s pd g)).isSome := by
    intro hall
    have := hall g hg
    rw [hnone] at this
    simp at this
  simp only [single_layer_update, if_neg hno]

/-- C2 counterexample — the claim "the layer's weight tensor is exactly equal
to its value before the call (no entry modified)" fails at `stFail`: the
inversion fails (the warning is emitted), yet weight entry `(0, 0)` was
changed from 5 to 0 by the dead-channel zeroing that runs before the
inversion attempt. -/
theorem slu_failure_modifies_weight_cex :
    (single_layer_update ctxFail stFail (1/100)).warning = some "fc1" ∧
    (single_layer_update ctxFail stFail (1/100)).weight 0 0 = 0 ∧
    ¬ (single_layer_update ctxFail stFail (1/100)).weight 0 0 = stFail.weight 0 0 := by
  refine ⟨by decide, by decide, by decide⟩

/-- C2 (amended claim theorem) — when the Cholesky-based inversion fails for
some group, `single_layer_update` returns (no exception escapes), emits a
warning naming the layer, and leaves every weight entry at its pre-call
value **except** that columns with a zero accumulator diagonal have already
been zeroed by the dead-channel step, which runs before the inversion
attempt. -/
theorem slu_failure_warns_keeps_nondead_weights
    (ctx : SLUCtx) (s : GPTQState) (pd : ℚ)
    (h : ∃ g ∈ Finset.range s.groups, ctx.cholInv (dampedH s pd g) = none) :
    (single_layer_update ctx s pd).warning = some s.layerName ∧
    (∀ r c, (single_layer_update ctx s pd).weight r c = deadFixW s r c) ∧
    (∀ r c, ¬ s.H (gidx s.groups r) c c = 0 →
      (single_layer_update ctx s pd).weight r c = s.weight r c) := by
  rw [slu_failure_branch ctx s pd h]
  refine ⟨rfl, fun r c => rfl, ?_⟩
  intro r c hc
  simp [deadFixW, hc]

/-- C2 witness: the amended behaviour at the concrete failing state. -/
theorem slu_failure_warns_keeps_nondead_weights_witness :
    (single_layer_update ctxFail stFail (1/100)).warning = some stFail.layerName ∧
    (∀ r c, (single_layer_update ctxFail stFail (1/100)).weight r c
      = deadFixW stFail r c) ∧
    (∀ r c, ¬ stFail.H (gidx stFail.groups r) c c = 0 →
      (single_layer_update ctxFail stFail (1/100)).weight r c = stFail.weight r c) :=
  slu_failure_warns_keeps_nondead_weights ctxFail stFail (1/100)
    ⟨0, by decide, rfl⟩

/-! ### Zero-sample layers (C3) -/

theorem writeBack_fold_cases (stale : List Nat) (B : Nat → Vec) (r c : Nat) :
    ∀ (n p : Nat) (W : Mat),
      (List.range' p n).foldl
        (fun Wacc σ => fun r' c' =>
          if c' = permAt stale σ then B σ r' else Wacc r' c') W r c
        = W r c ∨
      ∃ σ, p ≤ σ ∧ σ < p + n ∧ permAt stale σ = c ∧
        (List.range' p n).foldl
          (fun Wacc σ => fun r' c' =>
            if c' = permAt stale σ then B σ r' else Wacc r' c') W r c
          = B σ r := by
  intro n
  induction n with
  | zero => intro p W; left; rfl
  | succ n ih =>
    intro p W
    rw [List.range'_1_concat, List.foldl_append, List.foldl_cons, List.foldl_nil]
    show (if c = permAt stale (p + n) then B (p + n) r else _) = _ ∨ _
    by_cases hc : c = permAt stale (p + n)
    · right
      exact ⟨p + n, by omega, by omega, hc.symm, by rw [if_pos hc]⟩
    · rw [if_neg hc]
      rcases ih p W with h | ⟨σ, h1, h2, h3, h4⟩
      · left
        exact h
      · right
        exact ⟨σ, h1, by omega, h3, h4⟩

theorem writeBack_cases (stale : List Nat) (p i2 : Nat) (B : Nat → Vec)
    (W : Mat) (r c : Nat) :
    writeBack stale p i2 B W r c = W r c ∨
    ∃ σ, p ≤ σ ∧ σ < i2 ∧ permAt stale σ = c ∧
      writeBack stale p i2 B W r c = B σ r := by
  rw [writeBack]
  rcases writeBack_fold_cases stale B r c (i2 - p) p W with h | ⟨σ, h1, h2, h3, h4⟩
  · left; exact h
  · right; exact ⟨σ, h1, by omega, h3, h4⟩

theorem colStep_allZero (L : LoopCtx)
    (hperm : ∀ g, (L.perm g).Perm (List.range L.columns))
    (hq : ∀ (W : Mat) (r c : Nat), W r c = 0 → L.quant W r c = 0)
    (i2 : Nat) (hi2 : i2 ≤ L.columns) (st : InnerState) (p : Nat) (hp : p < i2)
    (h : AllZeroInner L.columns st) :
    AllZeroInner L.columns (colStep L i2 st p) := by
  have hrp : ∀ r, rp L r p < L.columns := fun r =>
    permAt_lt_of_perm (hperm (gidx L.groups r)) (lt_of_lt_of_le hp hi2)
  have he : ∀ r, (st.B p r - L.quant st.W r (rp L r p)) / rU L r p p = 0 := by
    intro r
    rw [h.2.1 p r (lt_of_lt_of_le hp hi2), hq st.W r _ (h.1 r _ (hrp r)),
      sub_zero, zero_div]
  have hB' : ∀ σ r, σ < L.columns →
      st.B σ r - (if p ≤ σ ∧ σ < i2 then
        (st.B p r - L.quant st.W r (rp L r p)) / rU L r p p * rU L r p σ
      else 0) = 0 := by
    intro σ r hσ
    rw [he r, zero_mul, ite_self, sub_zero]
    exact h.2.1 σ r hσ
  refine ⟨?_, ?_, ?_⟩
  · intro r c hc
    simp only [colStep]
    rcases writeBack_cases (stalePerm L) p i2 _ st.W r c with
      hcase | ⟨σ, hσ1, hσ2, hσ3, hcase⟩
    · rw [hcase]
      exact h.1 r c hc
    · rw [hcase]
      exact hB' σ r (lt_of_lt_of_le hσ2 hi2)
  · intro σ r hσ
    simp only [colStep]
    exact hB' σ r hσ
  · intro p' r
    simp only [colStep, Function.update_apply]
    split
    · exact he r
    · exact h.2.2 p' r

theorem blockStep_allZero (L : LoopCtx)
    (hperm : ∀ g, (L.perm g).Perm (List.range L.columns))
    (hq : ∀ (W : Mat) (r c : Nat), W r c = 0 → L.quant W r c = 0)
    (bs : Nat) (st : RunState) (k : Nat)
    (h : AllZeroInv L.columns st) : AllZeroInv L.columns (blockStep L bs st k) := by
  have hstI : AllZeroInner L.columns
      { W := st.W, B := fun σ r => st.W r (rp L r σ),
        qlog := st.qlog, elog := st.elog } := by
    refine ⟨h.1, ?_, h.2⟩
    intro σ r hσ
    exact h.1 r _ (permAt_lt_of_perm (hperm (gidx L.groups r)) hσ)
  have hst1 : AllZeroInner L.columns
      ((List.range' (k * bs) (min (k * bs + bs) L.columns - k * bs)).foldl
        (colStep L (min (k * bs + bs) L.columns))
        { W := st.W, B := fun σ r => st.W r (rp L r σ),
          qlog := st.qlog, elog := st.elog }) := by
    apply foldl_preserves _ _ _ _ _ hstI
    intro st' x hx hP
    have hxlt : x < min (k * bs + bs) L.columns := by
      have := List.mem_range'_1.mp hx
      omega
    exact colStep_allZero L hperm hq _ (min_le_right _ _) st' x hxlt hP
  refine ⟨?_, ?_⟩
  · intro r c hc
    simp only [blockStep]
    rw [Finset.sum_eq_zero, sub_zero]
    · exact hst1.1 r c hc
    · intro jj _
      rw [Finset.sum_eq_zero, ite_self]
      intro i _
      rw [hst1.2.2 i r, zero_mul]
  · intro p r
    simp only [blockStep]
    exact hst1.2.2 p r

/-- C3 counterexample — the claim "a zero-sample layer's update is skipped
or leaves weights byte-identical" fails at `stZero`: `nsamples = 0`, the
update runs to completion (no warning), and weight entry `(0, 0)` is changed
from 5 to 0 (every column is dead, so dead-channel handling zeroes the whole
weight matrix). -/
theorem slu_zero_sample_modifies_weight_cex :
    stZero.nsamples = 0 ∧
    (single_layer_update ctxZero stZero (1/100)).warning = none ∧
    (single_layer_update ctxZero stZero (1/100)).weight 0 0 = 0 ∧
    ¬ (single_layer_update ctxZero stZero (1/100)).weight 0 0
        = stZero.weight 0 0 := by
  refine ⟨rfl, by decide, ?_, ?_⟩
  · norm_num [single_layer_update, runBlocks, blockStep, colStep, writeBack,
      stalePerm, staleIdx, nBlocks, blocksize,
      loopCtxOf, deadFixW, rp, rU, permOf, computePerm, permAt, gidx, dampedH,
      permutedH, deadFixH, dampOf, cholU, stZero, ctxZero, List.range_succ, List.range',
      Finset.sum_Ico_eq_sum_range, Finset.sum_range_succ]
  · norm_num [single_layer_update, runBlocks, blockStep, colStep, writeBack,
      stalePerm, staleIdx, nBlocks, blocksize,
      loopCtxOf, deadFixW, rp, rU, permOf, computePerm, permAt, gidx, dampedH,
      permutedH, deadFixH, dampOf, cholU, stZero, ctxZero, List.range_succ, List.range',
      Finset.sum_Ico_eq_sum_range, Finset.sum_range_succ]

/-- C3 (amended claim theorem) — a layer whose accumulator is all zeros
(as after zero calibration samples) is **not** left unchanged: every column
is dead, so `single_layer_update` zeroes the entire (in-range) weight matrix;
no division by zero occurs (dead diagonals are forced to 1), and if the
quantizer maps zero entries to zero the correction loop keeps the weights at
zero. -/
theorem slu_zero_samples_zeroes_weight (ctx : SLUCtx) (s : GPTQState) (pd : ℚ)
    (_hn : s.nsamples = 0)
    (hH : ∀ g a b, s.H g a b = 0)
    (hq : ∀ (W : Mat) (r c : Nat), W r c = 0 → ctx.quant W r c = 0) :
    ∀ r c, c < s.columns → (single_layer_update ctx s pd).weight r c = 0 := by
  intro r c hc
  have hW1 : ∀ r' c', c' < s.columns → deadFixW s r' c' = 0 := by
    intro r' c' hc'
    simp [deadFixW, hc', hH]
  by_cases hall : ∀ g ∈ Finset.range s.groups, (ctx.cholInv (dampedH s pd g)).isSome
  · have hperm : ∀ g, ((loopCtxOf ctx s pd).perm g).Perm
        (List.range (loopCtxOf ctx s pd).columns) := fun g => permOf_perm s g
    have hq' : ∀ (W : Mat) (r' c' : Nat), W r' c' = 0 →
        (loopCtxOf ctx s pd).quant W r' c' = 0 := hq
    have hrun : AllZeroInv s.columns
        (runBlocks (loopCtxOf ctx s pd) (blocksize s) (nBlocks s) (deadFixW s)) := by
      rw [runBlocks]
      apply foldl_preserves _ _ _ _ _ ⟨fun r' c' hc' => hW1 r' c' hc', fun p r' => rfl⟩
      intro st k _ hP
      exact blockStep_allZero _ hperm hq' _ st k hP
    simp only [single_layer_update, if_pos hall]
    exact hrun.1 r c hc
  · simp only [single_layer_update, if_neg hall]
    exact hW1 r c hc

/-- C3 witness: the amended behaviour at the concrete zero-sample state. -/
theorem slu_zero_samples_zeroes_weight_witness :
    (single_layer_update ctxZero stZero (1/100)).weight 0 0 = 0 :=
  slu_zero_samples_zeroes_weight ctxZero stZero (1/100) rfl (fun _ _ _ => rfl)
    (fun _ _ _ h => h) 0 0 (by decide)


/-! ### The stale-permutation write-back (line 323): C4 and C5

Line 323, `weight[:, perm[i1:i2][i:]] = weight_block[:, i:]`, runs with the
loop variable `perm` left over from lines 294-302: for `groups > 1` that is
the **last** group's permutation, applied to every row, although the block
copy was built (lines 301-302) and the cross-block propagation is applied
(lines 328-330) through each row's own permutation — and the code's own
comment (line 298) says "we permute each row independently".  With act_order
on a depthwise layer whose per-group permutations differ, each row's
corrected values are therefore scattered to the wrong columns.  The
following evaluations trace this divergence on concrete layer states. -/

unseal List.merge List.mergeSort in
theorem permOf_stDeadBug_0 : permOf stDeadBug 0 = [1, 0] := by rfl

unseal List.merge List.mergeSort in
theorem permOf_stDeadBug_1 : permOf stDeadBug 1 = [0, 1] := by rfl

unseal List.merge List.mergeSort in
theorem permOf_stScatter_0 : permOf stScatter 0 = [1, 2, 0] := by rfl

unseal List.merge List.mergeSort in
theorem permOf_stScatter_1 : permOf stScatter 1 = [0, 1, 2] := by rfl

/-- C4 (code-bug evaluation) — **dead-channel zeroing is violated by the
stale write-back.**  At `stDeadBug` (depthwise, act_order, group 0's column
0 dead with zero row/column, zero-preserving quantizer, inverse factor
decoupled at the dead position — every premise of the dead-channel policy
satisfied), the final weight at the dead column of group 0's row is 7, not
0: at the first loop position, line 323 assigns row 0's corrected live
column through the *last* group's permutation onto column 0.  The
dead-channel step itself (lines 239-242) and its intent — documented at
lines 236-238 and in the per-row comments at lines 298/313-314 — would keep
this entry at 0 were the write-back indexed per row. -/
theorem slu_dead_channel_scatter_eval :
    stDeadBug.H 0 0 0 = 0 ∧
    (∀ k, k < stDeadBug.columns → stDeadBug.H 0 0 k = 0 ∧ stDeadBug.H 0 k 0 = 0) ∧
    (single_layer_update ctxDeadBug stDeadBug (1/100)).weight 0 0 = 7 ∧
    ¬ (single_layer_update ctxDeadBug stDeadBug (1/100)).weight 0 0 = 0 := by
  have hg : stDeadBug.groups = 2 := rfl
  have hc : stDeadBug.columns = 2 := rfl
  have hb : stDeadBug.numBlocks = 1 := rfl
  have hw : ∀ r c, stDeadBug.weight r c
      = if r = 0 then (if c = 0 then 5 else 7) else (if c = 0 then 3 else 2) :=
    fun _ _ => rfl
  have hH : ∀ g a b, stDeadBug.H g a b
      = if g = 0 then (if a = 1 ∧ b = 1 then 4 else 0)
        else (if a = 0 ∧ b = 0 then 9 else if a = 1 ∧ b = 1 then 4 else 0) :=
    fun _ _ _ => rfl
  have heq : (single_layer_update ctxDeadBug stDeadBug (1/100)).weight 0 0 = 7 := by
    norm_num [single_layer_update, runBlocks, blockStep, colStep, writeBack,
      stalePerm, staleIdx, nBlocks, blocksize, loopCtxOf, deadFixW, rp, rU,
      permAt, gidx, cholU, hg, hc, hb, hw, hH, ctxDeadBug, permOf_stDeadBug_0,
      permOf_stDeadBug_1, List.range_succ, List.range',
      Finset.sum_Ico_eq_sum_range, Finset.sum_range_succ, Function.update_apply]
  refine ⟨by norm_num [hH], ?_, heq, by rw [heq]; norm_num⟩
  intro k hk
  have hk2 : k < 2 := hk
  interval_cases k <;> norm_num [hH]

/-- C5 (code-bug evaluation) — **processed columns are not driven to the
quantized value that was read.**  At `stScatter` (depthwise, act_order, no
dead channel, idempotent two-level quantizer, nonzero-diagonal inverse
factor): the quantized value read for row 0 at loop position 0 was 10, row
0's own permuted column for position 0 is column 1, yet the final weight
there is 40 — the stale write-back of line 323 placed the corrected values
at the *last* group's permuted columns instead of row 0's own. -/
theorem slu_processed_column_scatter_eval :
    (runBlocks (loopCtxOf ctxScatter stScatter (1/100)) (blocksize stScatter)
        (nBlocks stScatter) (deadFixW stScatter)).qlog 0 0 = 10 ∧
    permAt (permOf stScatter (gidx stScatter.groups 0)) 0 = 1 ∧
    (single_layer_update ctxScatter stScatter (1/100)).weight 0 1 = 40 ∧
    ¬ (single_layer_update ctxScatter stScatter (1/100)).weight 0 1
        = (runBlocks (loopCtxOf ctxScatter stScatter (1/100)) (blocksize stScatter)
            (nBlocks stScatter) (deadFixW stScatter)).qlog 0 0 := by
  have hg : stScatter.groups = 2 := rfl
  have hc : stScatter.columns = 3 := rfl
  have hb : stScatter.numBlocks = 1 := rfl
  have hw' : ∀ r c, stScatter.weight r c
      = if r = 0 then (if c = 0 then 37 else if c = 1 then 12 else 20) else 1 :=
    fun _ _ => rfl
  have hH : ∀ g a b, stScatter.H g a b
      = if a = b then
          (if g = 0 then (if a = 0 then 1 else if a = 1 then 9 else 5)
           else (if a = 0 then 9 else if a = 1 then 5 else 1))
        else 0 :=
    fun _ _ _ => rfl
  have hq0 : (runBlocks (loopCtxOf ctxScatter stScatter (1/100)) (blocksize stScatter)
      (nBlocks stScatter) (deadFixW stScatter)).qlog 0 0 = 10 := by
    norm_num [runBlocks, blockStep, colStep, writeBack,
      stalePerm, staleIdx, nBlocks, blocksize, loopCtxOf, deadFixW, rp, rU,
      permAt, gidx, cholU, hg, hc, hb, hw', hH, ctxScatter, permOf_stScatter_0,
      permOf_stScatter_1, List.range_succ, List.range',
      Finset.sum_Ico_eq_sum_range, Finset.sum_range_succ, Function.update_apply]
  have hw : (single_layer_update ctxScatter stScatter (1/100)).weight 0 1 = 40 := by
    norm_num [single_layer_update, runBlocks, blockStep, colStep, writeBack,
      stalePerm, staleIdx, nBlocks, blocksize, loopCtxOf, deadFixW, rp, rU,
      permAt, gidx, cholU, hg, hc, hb, hw', hH, ctxScatter, permOf_stScatter_0,
      permOf_stScatter_1, List.range_succ, List.range',
      Finset.sum_Ico_eq_sum_range, Finset.sum_range_succ, Function.update_apply]
  refine ⟨hq0, ?_, hw, by rw [hw, hq0]; norm_num⟩
  rw [hg, show gidx 2 0 = 0 from rfl, permOf_stScatter_0]
  norm_num [permAt]

end BrevitasGPTQ
